import Mathlib

/-!
Verification of the trading-simulator core of `src/main.py` (ALPHA Finance
backend).  Python dictionaries are modelled as insertion-ordered association
lists over `String` keys (Python dict keys are unique, so removing every
entry with a key models `del d[k]`, and replacing the first entry models
`d[k] = v`).  Python floats are modelled as exact rationals `ℚ`; Python
`int` as `ℤ`/`ℕ`; `datetime.now()` timestamps, `uuid` trade ids and the
random source of `random.uniform` are passed in as explicit parameters.
-/

namespace AlphaFinance

/-! ### Association lists modelling Python dicts -/

/-- `d.get(k)` / `k in d` on a Python dict, as an association-list lookup. -/
def lookupA {α : Type} : List (String × α) → String → Option α
  | [], _ => none
  | e :: rest, k => if e.1 = k then some e.2 else lookupA rest k

/-- `d[k] = v` on a Python dict: replace the entry in place if the key is
present, otherwise append a new entry (insertion order). -/
def setA {α : Type} : List (String × α) → String → α → List (String × α)
  | [], k, v => [(k, v)]
  | e :: rest, k, v => if e.1 = k then (k, v) :: rest else e :: setA rest k v

/-- `del d[k]` on a Python dict: remove the key's entry (dict keys are
unique, so removing all matching entries is the same operation). -/
def eraseA {α : Type} : List (String × α) → String → List (String × α)
  | [], _ => []
  | e :: rest, k => if e.1 = k then eraseA rest k else e :: eraseA rest k

theorem lookupA_nil {α : Type} (k : String) : lookupA ([] : List (String × α)) k = none := rfl

theorem lookupA_cons {α : Type} (e : String × α) (rest : List (String × α)) (k : String) :
    lookupA (e :: rest) k = if e.1 = k then some e.2 else lookupA rest k := rfl

theorem lookupA_setA_self {α : Type} (l : List (String × α)) (k : String) (v : α) :
    lookupA (setA l k v) k = some v := by
  induction l with
  | nil => simp [setA, lookupA]
  | cons e rest ih =>
    by_cases h : e.1 = k
    · simp [setA, h, lookupA]
    · simp [setA, h, lookupA, ih]

theorem lookupA_setA_ne {α : Type} (l : List (String × α)) (k k' : String) (v : α)
    (h : k' ≠ k) : lookupA (setA l k v) k' = lookupA l k' := by
  induction l with
  | nil => simp [setA, lookupA, Ne.symm h]
  | cons e rest ih =>
    by_cases he : e.1 = k
    · simp [setA, he, lookupA, Ne.symm h]
    · simp [setA, he, lookupA, ih]

theorem lookupA_eraseA_self {α : Type} (l : List (String × α)) (k : String) :
    lookupA (eraseA l k) k = none := by
  induction l with
  | nil => simp [eraseA, lookupA]
  | cons e rest ih =>
    by_cases h : e.1 = k
    · simp [eraseA, h, ih]
    · simp [eraseA, h, lookupA, ih]

theorem lookupA_eraseA_ne {α : Type} (l : List (String × α)) (k k' : String)
    (h : k' ≠ k) : lookupA (eraseA l k) k' = lookupA l k' := by
  induction l with
  | nil => simp [eraseA]
  | cons e rest ih =>
    by_cases he : e.1 = k
    · rw [eraseA, if_pos he, ih, lookupA_cons, if_neg]
      rw [he]; exact fun hk => h hk.symm
    · rw [eraseA, if_neg he, lookupA_cons, lookupA_cons, ih]

theorem setA_eq_of_lookupA {α : Type} (l : List (String × α)) (k : String) (v : α)
    (h : lookupA l k = some v) : setA l k v = l := by
  induction l with
  | nil => simp [lookupA] at h
  | cons e rest ih =>
    by_cases he : e.1 = k
    · rw [lookupA_cons, if_pos he] at h
      injection h with hv
      rw [setA, if_pos he, ← hv, ← he]
    · rw [lookupA_cons, if_neg he] at h
      rw [setA, if_neg he, ih h]

theorem lookupA_append {α : Type} (l m : List (String × α)) (k : String)
    (h : lookupA l k = none) : lookupA (l ++ m) k = lookupA m k := by
  induction l with
  | nil => simp
  | cons e rest ih =>
    rw [lookupA_cons] at h
    by_cases he : e.1 = k
    · rw [if_pos he] at h; exact absurd h (by simp)
    · rw [if_neg he] at h
      rw [List.cons_append, lookupA_cons, if_neg he, ih h]

theorem mem_setA {α : Type} (l : List (String × α)) (k : String) (v : α) (e : String × α)
    (h : e ∈ setA l k v) : e ∈ l ∨ e = (k, v) := by
  induction l with
  | nil => simp [setA] at h; simp [h]
  | cons f rest ih =>
    by_cases hf : f.1 = k
    · rw [setA, if_pos hf] at h
      rcases List.mem_cons.1 h with h | h
      · right; exact h
      · left; exact List.mem_cons_of_mem _ h
    · rw [setA, if_neg hf] at h
      rcases List.mem_cons.1 h with h | h
      · left; simp [h]
      · rcases ih h with h | h
        · left; exact List.mem_cons_of_mem _ h
        · right; exact h

theorem mem_eraseA {α : Type} (l : List (String × α)) (k : String) (e : String × α)
    (h : e ∈ eraseA l k) : e ∈ l := by
  induction l with
  | nil => simp [eraseA] at h
  | cons f rest ih =>
    by_cases hf : f.1 = k
    · rw [eraseA, if_pos hf] at h
      exact List.mem_cons_of_mem _ (ih h)
    · rw [eraseA, if_neg hf] at h
      rcases List.mem_cons.1 h with h | h
      · simp [h]
      · exact List.mem_cons_of_mem _ (ih h)

theorem lookupA_mem {α : Type} (l : List (String × α)) (k : String) (v : α)
    (h : lookupA l k = some v) : (k, v) ∈ l := by
  induction l with
  | nil => simp [lookupA] at h
  | cons e rest ih =>
    by_cases he : e.1 = k
    · rw [lookupA_cons, if_pos he] at h
      injection h with hv
      rw [← he, ← hv]
      exact List.mem_cons_self _ _
    · rw [lookupA_cons, if_neg he] at h
      exact List.mem_cons_of_mem _ (ih h)

/-! ### Data model (from the Pydantic models in `src/main.py`) -/

/-- One entry of `TradingSimulatorState.portfolio`:
`symbol -> {shares: int, avg_price: float}`. -/
structure Holding where
  shares : ℤ
  avg_price : ℚ
deriving Repr, DecidableEq

/-- `TradeOrder` from `src/main.py`: the input of `execute_trade`. -/
structure TradeOrder where
  symbol : String
  action : String
  quantity : ℤ
  order_type : String
  limit_price : Option ℚ
deriving Repr, DecidableEq

/-- `TradeExecution` from `src/main.py`: one Trade Journal record.
The `uuid` string id is modelled as a `ℕ` id. -/
structure TradeExecution where
  id : ℕ
  user_id : String
  symbol : String
  action : String
  quantity : ℤ
  price : ℚ
  total_value : ℚ
  timestamp : ℕ
  order_type : String
deriving Repr, DecidableEq

/-- `TradingSimulatorState` from `src/main.py`. -/
structure TradingSimulatorState where
  user_id : String
  level : String
  balance : ℚ
  initial_balance : ℚ
  portfolio : List (String × Holding)
  stock_prices : List (String × ℚ)
  trade_count : ℕ
  total_pnl : ℚ
  created_at : ℕ
  last_updated : ℕ
deriving Repr, DecidableEq

/-- The process-wide mutable stores `simulator_db` and `trades_db`
(`users_db`/`progress_db` are outside the simulator core). -/
structure GlobalState where
  simulator_db : List (String × TradingSimulatorState)
  trades_db : List TradeExecution
deriving Repr, DecidableEq

/-- The empty process state at startup. -/
def emptyGlobal : GlobalState := ⟨[], []⟩

/-- Every distinct failure surfaced by the simulator endpoints.
`divisionByZero` is the unhandled Python `ZeroDivisionError` raised by the
average-price computation when `current_shares + order.quantity == 0`;
all the others are explicit `HTTPException`s. -/
inductive ApiError where
  | simulatorNotInitialized
  | invalidLevel
  | stockNotAvailable
  | limitPriceRequired
  | unfavorablePrice
  | insufficientBalance
  | insufficientShares
  | invalidAction
  | divisionByZero
deriving Repr, DecidableEq

/-! ### Static data tables (`STOCK_DATA`, `INITIAL_PRICES`, level seeds) -/

/-- `STOCK_DATA` from `src/main.py`. -/
def STOCK_DATA : List (String × List String) :=
  [("beginner", ["AAPL", "GOOGL", "MSFT", "AMZN", "TSLA"]),
   ("intermediate", ["AAPL", "GOOGL", "MSFT", "AMZN", "TSLA", "META", "NVDA", "JPM", "JNJ",
      "V", "PG", "UNH", "HD", "MA", "DIS"]),
   ("advanced", ["AAPL", "GOOGL", "MSFT", "AMZN", "TSLA", "META", "NVDA", "JPM", "JNJ",
      "V", "PG", "UNH", "HD", "MA", "DIS", "BAC", "XOM", "CVX", "LLY", "ABBV",
      "PFE", "KO", "PEP", "TMO", "COST", "AVGO", "LIN", "NKE", "ACN", "CRM"])]

/-- `INITIAL_PRICES` from `src/main.py`. -/
def INITIAL_PRICES : List (String × ℚ) :=
  [("AAPL", 175.50), ("GOOGL", 142.80), ("MSFT", 378.90), ("AMZN", 145.30), ("TSLA", 248.70),
   ("META", 325.40), ("NVDA", 485.20), ("JPM", 178.60), ("JNJ", 162.40), ("V", 265.80),
   ("PG", 158.90), ("UNH", 542.30), ("HD", 356.70), ("MA", 398.50), ("DIS", 92.40),
   ("BAC", 34.20), ("XOM", 108.60), ("CVX", 146.80), ("LLY", 568.90), ("ABBV", 158.30),
   ("PFE", 28.60), ("KO", 62.40), ("PEP", 178.90), ("TMO", 542.60), ("COST", 689.30),
   ("AVGO", 892.40), ("LIN", 425.60), ("NKE", 108.90), ("ACN", 342.70), ("CRM", 256.80)]

/-- The `initial_balances` dict local to `initialize_simulator`. -/
def initial_balances : List (String × ℚ) :=
  [("beginner", 2000), ("intermediate", 5000), ("advanced", 10000)]

/-! ### Helper functions -/

/-- Python 3 `round` to an integer: round half to even (banker's rounding).
Binary-float representation effects of CPython are abstracted away by
working with exact rationals. -/
def pyRound (x : ℚ) : ℤ :=
  let f := ⌊x⌋
  let r := x - f
  if r < 1 / 2 then f
  else if 1 / 2 < r then f + 1
  else if f % 2 = 0 then f else f + 1

/-- `round(x, 2)` from Python, used by `simulate_price_change`. -/
def round2 (x : ℚ) : ℚ := (pyRound (x * 100) : ℚ) / 100

/-- `simulate_price_change` from `src/main.py`; the draw of
`random.uniform(-0.02, 0.02)` is passed in as `change_percent`. -/
def simulate_price_change (current_price : ℚ) (change_percent : ℚ) : ℚ :=
  round2 (current_price * (1 + change_percent))

/-- `calculate_portfolio_value` from `src/main.py`: iterates over the
portfolio, adding `shares * price` for every symbol present in the price
table (absent symbols are skipped). -/
def calculate_portfolio_value (portfolio : List (String × Holding))
    (stock_prices : List (String × ℚ)) : ℚ :=
  portfolio.foldl
    (fun total e =>
      match lookupA stock_prices e.1 with
      | some p => total + (e.2.shares : ℚ) * p
      | none => total)
    0

/-! ### Simulator endpoints -/

/-- The response of `initialize_simulator`. -/
structure InitResponse where
  level : String
  initial_balance : ℚ
  available_stocks : List String
  stock_prices : List (String × ℚ)
deriving Repr, DecidableEq

/-- `initialize_simulator` from `src/main.py` (`POST /simulator/{user_id}/init`):
validates the level, then overwrites the user's session with a fresh
`TradingSimulatorState`; `trades_db` is untouched.  `t` stands for the
`datetime.now()` calls. -/
def initSimulator (g : GlobalState) (user_id level : String) (t : ℕ) :
    Except ApiError InitResponse × GlobalState :=
  if level = "beginner" ∨ level = "intermediate" ∨ level = "advanced" then
    let initial_balance := (lookupA initial_balances level).getD 0
    let available_stocks := (lookupA STOCK_DATA level).getD []
    let stock_prices := available_stocks.map (fun s => (s, (lookupA INITIAL_PRICES s).getD 0))
    let st : TradingSimulatorState :=
      { user_id := user_id, level := level, balance := initial_balance,
        initial_balance := initial_balance, portfolio := [], stock_prices := stock_prices,
        trade_count := 0, total_pnl := 0, created_at := t, last_updated := t }
    (.ok ⟨level, initial_balance, available_stocks, stock_prices⟩,
     ⟨setA g.simulator_db user_id st, g.trades_db⟩)
  else (.error .invalidLevel, g)

/-- The response of `get_simulator_state`. -/
structure StateView where
  user_id : String
  level : String
  balance : ℚ
  portfolio : List (String × Holding)
  stock_prices : List (String × ℚ)
  portfolio_value : ℚ
  total_value : ℚ
  initial_balance : ℚ
  pnl : ℚ
  trade_count : ℕ
  last_updated : ℕ
deriving Repr, DecidableEq

/-- `get_simulator_state` from `src/main.py` (`GET /simulator/{user_id}/state`). -/
def getSimulatorState (g : GlobalState) (user_id : String) : Except ApiError StateView :=
  match lookupA g.simulator_db user_id with
  | none => .error .simulatorNotInitialized
  | some state =>
    let portfolio_value := calculate_portfolio_value state.portfolio state.stock_prices
    let total_value := state.balance + portfolio_value
    let pnl := total_value - state.initial_balance
    .ok { user_id := user_id, level := state.level, balance := state.balance,
          portfolio := state.portfolio, stock_prices := state.stock_prices,
          portfolio_value := portfolio_value, total_value := total_value,
          initial_balance := state.initial_balance, pnl := pnl,
          trade_count := state.trade_count, last_updated := state.last_updated }

/-- The `"trade"` sub-dict plus top-level fields of the `execute_trade`
response.  Note: in the Python source the local variable `total_value` is
reassigned to `balance + portfolio_value` before the response is built, so
the response's `trade.total_value` is that account total, not
`quantity * price` (the journal record keeps `quantity * price`). -/
structure TradeResult where
  trade_id : ℕ
  trade_symbol : String
  trade_action : String
  trade_quantity : ℤ
  trade_price : ℚ
  trade_total_value : ℚ
  new_balance : ℚ
  portfolio : List (String × Holding)
  total_value : ℚ
  pnl : ℚ
deriving Repr, DecidableEq

/-- The limit-order handling block of `execute_trade`: decides the
execution price or raises.  Any `order_type` other than `"limit"` takes
the `else` branch of the Python `if` and fills at the market price. -/
def execPrice (order : TradeOrder) (current_price : ℚ) : Except ApiError ℚ :=
  if order.order_type = "limit" then
    match order.limit_price with
    | none => .error .limitPriceRequired
    | some lp =>
      if (order.action = "buy" ∧ lp < current_price) ∨
         (order.action = "sell" ∧ current_price < lp) then .error .unfavorablePrice
      else .ok lp
  else .ok current_price

/-- The tail of `execute_trade` after the buy/sell mutation succeeded:
append the `TradeExecution` to `trades_db`, bump `trade_count`, stamp
`last_updated`, recompute portfolio value / total value / pnl, store
`total_pnl`, and build the response. -/
def finishTrade (user_id : String) (state : TradingSimulatorState) (order : TradeOrder)
    (execution_price total_value : ℚ) (trade_id t : ℕ) (journal : List TradeExecution) :
    Except ApiError TradeResult × TradingSimulatorState × List TradeExecution :=
  let trade : TradeExecution :=
    { id := trade_id, user_id := user_id, symbol := order.symbol, action := order.action,
      quantity := order.quantity, price := execution_price, total_value := total_value,
      timestamp := t, order_type := order.order_type }
  let journal2 := journal ++ [trade]
  let state2 := { state with trade_count := state.trade_count + 1, last_updated := t }
  let portfolio_value := calculate_portfolio_value state2.portfolio state2.stock_prices
  let total_value2 := state2.balance + portfolio_value
  let pnl := total_value2 - state2.initial_balance
  let state3 := { state2 with total_pnl := pnl }
  (.ok { trade_id := trade_id, trade_symbol := order.symbol, trade_action := order.action,
         trade_quantity := order.quantity, trade_price := execution_price,
         trade_total_value := total_value2, new_balance := state3.balance,
         portfolio := state3.portfolio, total_value := total_value2, pnl := pnl },
   state3, journal2)

/-- The body of `execute_trade` from `src/main.py` after the session was
fetched: validation, the buy/sell mutation, and the journal append, with
every in-place mutation threaded through the returned state.  On the
unhandled `ZeroDivisionError` (`new_shares = 0`) the mutations already
applied — the balance debit and the inserted `{shares: 0, avg_price: 0}`
entry — persist, exactly as in Python. -/
def executeTrade (user_id : String) (state : TradingSimulatorState) (order : TradeOrder)
    (trade_id t : ℕ) (journal : List TradeExecution) :
    Except ApiError TradeResult × TradingSimulatorState × List TradeExecution :=
  match lookupA state.stock_prices order.symbol with
  | none => (.error .stockNotAvailable, state, journal)
  | some current_price =>
    match execPrice order current_price with
    | .error e => (.error e, state, journal)
    | .ok execution_price =>
      let total_value := execution_price * order.quantity
      if order.action = "buy" then
        if state.balance < total_value then (.error .insufficientBalance, state, journal)
        else
          let state1 := { state with balance := state.balance - total_value }
          let portfolio1 :=
            if (lookupA state1.portfolio order.symbol).isSome then state1.portfolio
            else state1.portfolio ++ [(order.symbol, ⟨0, 0⟩)]
          let cur := (lookupA portfolio1 order.symbol).getD ⟨0, 0⟩
          let new_shares := cur.shares + order.quantity
          if new_shares = 0 then
            (.error .divisionByZero, { state1 with portfolio := portfolio1 }, journal)
          else
            let new_avg := ((cur.shares : ℚ) * cur.avg_price +
              (order.quantity : ℚ) * execution_price) / (new_shares : ℚ)
            finishTrade user_id
              { state1 with portfolio := setA portfolio1 order.symbol ⟨new_shares, new_avg⟩ }
              order execution_price total_value trade_id t journal
      else if order.action = "sell" then
        match lookupA state.portfolio order.symbol with
        | none => (.error .insufficientShares, state, journal)
        | some h =>
          if h.shares < order.quantity then (.error .insufficientShares, state, journal)
          else
            let state1 := { state with balance := state.balance + total_value }
            let new_shares := h.shares - order.quantity
            let portfolio2 :=
              if new_shares = 0 then eraseA state1.portfolio order.symbol
              else setA state1.portfolio order.symbol ⟨new_shares, h.avg_price⟩
            finishTrade user_id { state1 with portfolio := portfolio2 }
              order execution_price total_value trade_id t journal
      else (.error .invalidAction, state, journal)

/-- `execute_trade` at the endpoint level (`POST /simulator/{user_id}/trade`):
fetch the session from `simulator_db`, run the body and store the
(possibly partially) mutated session back — in Python the session object
is mutated in place, so its mutations persist even when an exception
aborts the request. -/
def executeTradeApp (g : GlobalState) (user_id : String) (order : TradeOrder)
    (trade_id t : ℕ) : Except ApiError TradeResult × GlobalState :=
  match lookupA g.simulator_db user_id with
  | none => (.error .simulatorNotInitialized, g)
  | some state =>
    let out := executeTrade user_id state order trade_id t g.trades_db
    (out.1, ⟨setA g.simulator_db user_id out.2.1, out.2.2⟩)

/-- The response of `get_trade_history`. -/
structure HistoryResponse where
  user_id : String
  trades : List TradeExecution
  total_trades : ℕ
deriving Repr, DecidableEq

/-- `get_trade_history` from `src/main.py` (`GET /simulator/{user_id}/trades`):
filter `trades_db` by user, stable-sort by timestamp descending
(CPython's `list.sort(key=..., reverse=True)` keeps ties in list order),
truncate to `limit`. -/
def getTradeHistory (g : GlobalState) (user_id : String) (limit : ℕ) : HistoryResponse :=
  let user_trades := g.trades_db.filter (fun tr => tr.user_id == user_id)
  let sorted := user_trades.mergeSort (fun a b => b.timestamp ≤ a.timestamp)
  ⟨user_id, sorted.take limit, user_trades.length⟩

/-- The response of `update_stock_prices`. -/
structure PricesResponse where
  old_prices : List (String × ℚ)
  new_prices : List (String × ℚ)
  timestamp : ℕ
deriving Repr, DecidableEq

/-- `update_stock_prices` from `src/main.py`
(`POST /simulator/{user_id}/update-prices`): every symbol's price is
replaced by `simulate_price_change`; the per-symbol random draws are the
explicit input `draws`. -/
def updateStockPrices (g : GlobalState) (user_id : String) (draws : String → ℚ) (t : ℕ) :
    Except ApiError PricesResponse × GlobalState :=
  match lookupA g.simulator_db user_id with
  | none => (.error .simulatorNotInitialized, g)
  | some state =>
    let new_prices := state.stock_prices.map (fun e => (e.1, simulate_price_change e.2 (draws e.1)))
    let state2 := { state with stock_prices := new_prices, last_updated := t }
    (.ok ⟨state.stock_prices, new_prices, t⟩,
     ⟨setA g.simulator_db user_id state2, g.trades_db⟩)

/-! ### General lemmas about the operations -/

/-- The spec's description of portfolio value: the sum over holdings of
`shares * current price`, a symbol absent from the price table
contributing `0`.  Stated separately from `calculate_portfolio_value`
(which is translated from the source) so the two can be compared. -/
def portfolioValueSpec (portfolio : List (String × Holding))
    (stock_prices : List (String × ℚ)) : ℚ :=
  (portfolio.map (fun e => (e.2.shares : ℚ) * ((lookupA stock_prices e.1).getD 0))).sum

theorem lookupA_getD_of_isSome (l : List (String × ℚ)) (s : String)
    (h : (lookupA l s).isSome) : lookupA l s = some ((lookupA l s).getD 0) := by
  cases ho : lookupA l s with
  | none => rw [ho] at h; simp at h
  | some p => rfl

theorem calculate_portfolio_value_go (portfolio : List (String × Holding))
    (stock_prices : List (String × ℚ)) (acc : ℚ) :
    portfolio.foldl
      (fun total e =>
        match lookupA stock_prices e.1 with
        | some p => total + (e.2.shares : ℚ) * p
        | none => total)
      acc = acc + portfolioValueSpec portfolio stock_prices := by
  induction portfolio generalizing acc with
  | nil => simp [portfolioValueSpec]
  | cons e rest ih =>
    rw [List.foldl_cons]
    cases hp : lookupA stock_prices e.1 with
    | none => simp only [hp, ih, portfolioValueSpec, List.map_cons, List.sum_cons,
        Option.getD_none, mul_zero, zero_add]
    | some p => simp only [hp, ih, portfolioValueSpec, List.map_cons, List.sum_cons,
        Option.getD_some]; ring

/-- `calculate_portfolio_value` computes exactly the spec's sum. -/
theorem calculate_portfolio_value_eq (portfolio : List (String × Holding))
    (stock_prices : List (String × ℚ)) :
    calculate_portfolio_value portfolio stock_prices =
      portfolioValueSpec portfolio stock_prices := by
  rw [calculate_portfolio_value, calculate_portfolio_value_go, zero_add]

/-! ### C9: account initialization -/

/-- **C9.** `init_account` fails with `InvalidLevel` for any level outside
{beginner, intermediate, advanced} without touching any session; for a
valid level it sets balance = initial_balance to the level seed
(2000/5000/10000), seeds the price table with exactly the level's symbol
universe at the global initial prices, and resets the trade counter to 0. -/
theorem init_account_level_semantics (g : GlobalState) (u level : String) (t : ℕ) :
    (¬(level = "beginner" ∨ level = "intermediate" ∨ level = "advanced") →
      initSimulator g u level t = (.error .invalidLevel, g))
    ∧ ((level = "beginner" ∨ level = "intermediate" ∨ level = "advanced") →
      ∃ st, lookupA (initSimulator g u level t).2.simulator_db u = some st ∧
        st.balance = st.initial_balance ∧
        (level = "beginner" → st.balance = 2000) ∧
        (level = "intermediate" → st.balance = 5000) ∧
        (level = "advanced" → st.balance = 10000) ∧
        st.trade_count = 0 ∧
        st.portfolio = [] ∧
        st.stock_prices.map Prod.fst = (lookupA STOCK_DATA level).getD [] ∧
        (∀ e ∈ st.stock_prices, lookupA INITIAL_PRICES e.1 = some e.2)) := by
  constructor
  · intro hinv
    rw [initSimulator, if_neg hinv]
  · intro hvalid
    rw [initSimulator, if_pos hvalid]
    refine ⟨_, lookupA_setA_self _ _ _, rfl, ?_, ?_, ?_, rfl, rfl, ?_, ?_⟩
    · intro h; subst h; rfl
    · intro h; subst h; rfl
    · intro h; subst h; rfl
    · simp only [List.map_map]
      exact List.map_id'' (fun x => rfl) _
    · dsimp only
      intro e he
      obtain ⟨s, hs, rfl⟩ := List.mem_map.1 he
      refine lookupA_getD_of_isSome _ _ ?_
      have hall : ∀ x ∈ (lookupA STOCK_DATA level).getD [],
          ((lookupA INITIAL_PRICES x).isSome : Prop) := by
        rcases hvalid with h | h | h <;> subst h <;> decide
      exact hall s hs

/-- Witness for C9 at a concrete input: initializing `"u"` at level
`"intermediate"` from the empty store. -/
theorem init_account_level_semantics_witness :
    ("intermediate" = "beginner" ∨ "intermediate" = "intermediate" ∨
      "intermediate" = "advanced") ∧
    (∃ st, lookupA (initSimulator emptyGlobal "u" "intermediate" 0).2.simulator_db "u" =
        some st ∧
      st.balance = st.initial_balance ∧
      ("intermediate" = "beginner" → st.balance = 2000) ∧
      ("intermediate" = "intermediate" → st.balance = 5000) ∧
      ("intermediate" = "advanced" → st.balance = 10000) ∧
      st.trade_count = 0 ∧
      st.portfolio = [] ∧
      st.stock_prices.map Prod.fst = (lookupA STOCK_DATA "intermediate").getD [] ∧
      (∀ e ∈ st.stock_prices, lookupA INITIAL_PRICES e.1 = some e.2)) :=
  ⟨Or.inr (Or.inl rfl),
   (init_account_level_semantics emptyGlobal "u" "intermediate" 0).2
     (Or.inr (Or.inl rfl))⟩

/-! ### C8: re-initialization replaces the session but keeps the journal -/

/-- **C8.** Re-initializing an already-initialized user fully replaces the
session — balance reset to the level seed, portfolio emptied, prices
re-seeded, trade counter reset to 0 — while `trades_db` is untouched, so a
history query returns exactly what it returned before. -/
theorem reinit_replaces_session_keeps_journal (g : GlobalState) (u level : String)
    (t limit : ℕ) (st0 : TradingSimulatorState)
    (hvalid : level = "beginner" ∨ level = "intermediate" ∨ level = "advanced")
    (_hst0 : lookupA g.simulator_db u = some st0) :
    (initSimulator g u level t).2.trades_db = g.trades_db
    ∧ (∃ st, lookupA (initSimulator g u level t).2.simulator_db u = some st ∧
        st.balance = (lookupA initial_balances level).getD 0 ∧
        st.initial_balance = st.balance ∧
        st.portfolio = [] ∧
        st.stock_prices =
          ((lookupA STOCK_DATA level).getD []).map
            (fun s => (s, (lookupA INITIAL_PRICES s).getD 0)) ∧
        st.trade_count = 0)
    ∧ getTradeHistory (initSimulator g u level t).2 u limit = getTradeHistory g u limit := by
  rw [initSimulator, if_pos hvalid]
  exact ⟨rfl, ⟨_, lookupA_setA_self _ _ _, rfl, rfl, rfl, rfl, rfl⟩, rfl⟩

/-- Witness for C8: a user with one recorded trade and an existing beginner
session is re-initialized to advanced; the journal and history are kept. -/
theorem reinit_replaces_session_keeps_journal_witness :
    lookupA (initSimulator ⟨[], [⟨7, "u", "AAPL", "buy", 1, 10, 10, 3, "market"⟩]⟩
        "u" "beginner" 0).2.simulator_db "u" ≠ none ∧
    ((initSimulator
        (initSimulator ⟨[], [⟨7, "u", "AAPL", "buy", 1, 10, 10, 3, "market"⟩]⟩
          "u" "beginner" 0).2 "u" "advanced" 1).2.trades_db =
      [⟨7, "u", "AAPL", "buy", 1, 10, 10, 3, "market"⟩] ∧
     getTradeHistory (initSimulator
        (initSimulator ⟨[], [⟨7, "u", "AAPL", "buy", 1, 10, 10, 3, "market"⟩]⟩
          "u" "beginner" 0).2 "u" "advanced" 1).2 "u" 50 =
      getTradeHistory (initSimulator ⟨[], [⟨7, "u", "AAPL", "buy", 1, 10, 10, 3, "market"⟩]⟩
        "u" "beginner" 0).2 "u" 50) := by
  have h := reinit_replaces_session_keeps_journal
    (initSimulator ⟨[], [⟨7, "u", "AAPL", "buy", 1, 10, 10, 3, "market"⟩]⟩ "u" "beginner" 0).2
    "u" "advanced" 1 50 _ (Or.inr (Or.inr rfl)) (lookupA_setA_self _ _ _)
  exact ⟨by decide, h.1, h.2.2⟩

/-! ### C1: validation failures mutate nothing -/

/-- What `finishTrade` returns, componentwise. -/
theorem finishTrade_view {u : String} {st : TradingSimulatorState} {order : TradeOrder}
    {ep tv : ℚ} {trade_id t : ℕ} {j : List TradeExecution}
    {res : Except ApiError TradeResult} {st2 : TradingSimulatorState}
    {j2 : List TradeExecution}
    (hE : finishTrade u st order ep tv trade_id t j = (res, st2, j2)) :
    res = .ok
      { trade_id := trade_id, trade_symbol := order.symbol,
        trade_action := order.action, trade_quantity := order.quantity, trade_price := ep,
        trade_total_value := st.balance + calculate_portfolio_value st.portfolio st.stock_prices,
        new_balance := st.balance, portfolio := st.portfolio,
        total_value := st.balance + calculate_portfolio_value st.portfolio st.stock_prices,
        pnl := st.balance + calculate_portfolio_value st.portfolio st.stock_prices
          - st.initial_balance } ∧
    st2 =
      { st with
        trade_count := st.trade_count + 1,
        last_updated := t,
        total_pnl := st.balance + calculate_portfolio_value st.portfolio st.stock_prices
          - st.initial_balance } ∧
    j2 = j ++ [⟨trade_id, u, order.symbol, order.action, order.quantity, ep, tv, t,
      order.order_type⟩] := by
  simp only [finishTrade, Prod.mk.injEq] at hE
  obtain ⟨h1, h2, h3⟩ := hE
  exact ⟨h1.symm, h2.symm, h3.symm⟩

/-- Any failure other than the unhandled division by zero returns the state
and journal untouched: every `HTTPException` in `execute_trade` is raised
before the first mutation. -/
theorem executeTrade_error_eq {u : String} {state : TradingSimulatorState}
    {order : TradeOrder} {trade_id t : ℕ} {journal : List TradeExecution}
    {e : ApiError} {st2 : TradingSimulatorState} {j2 : List TradeExecution}
    (hE : executeTrade u state order trade_id t journal = (.error e, st2, j2))
    (hne : e ≠ .divisionByZero) : st2 = state ∧ j2 = journal := by
  simp only [executeTrade] at hE
  repeat' split at hE
  all_goals
    first
    | (simp only [Prod.mk.injEq] at hE
       exact ⟨hE.2.1.symm, hE.2.2.symm⟩)
    | (simp only [Prod.mk.injEq, Except.error.injEq] at hE
       exact absurd hE.1.symm hne)
    | (obtain ⟨hres, hst, hj⟩ := finishTrade_view hE
       simp at hres)

/-- **C1.** An order failing any validation step (account missing, symbol
not tradeable, limit price missing, unfavorable limit price, insufficient
balance, insufficient shares, invalid action — i.e. every failure except
the unhandled division by zero of C7) leaves the whole store untouched:
balance, holdings, trade count and journal are all as before. -/
theorem execute_order_validation_failure_no_mutation (g : GlobalState) (u : String)
    (order : TradeOrder) (trade_id t : ℕ) (e : ApiError)
    (h : (executeTradeApp g u order trade_id t).1 = .error e)
    (hne : e ≠ .divisionByZero) :
    (executeTradeApp g u order trade_id t).2 = g := by
  obtain ⟨db, tr⟩ := g
  unfold executeTradeApp at h ⊢
  cases hu : lookupA db u with
  | none => simp only [hu]
  | some state =>
    simp only [hu] at h ⊢
    rcases hE : executeTrade u state order trade_id t tr with ⟨res, st2, j2⟩
    simp only [hE] at h ⊢
    have hEe : executeTrade u state order trade_id t tr = (.error e, st2, j2) := by
      rw [hE, ← h]
    obtain ⟨h1, h2⟩ := executeTrade_error_eq hEe hne
    subst h1; subst h2
    simp only [GlobalState.mk.injEq]
    refine ⟨setA_eq_of_lookupA _ _ _ hu, ?_⟩
    trivial

/-- Witness for C1: a buy of 1000 AAPL against a fresh beginner balance of
2000 fails with `InsufficientBalance` and the store is exactly as before. -/
theorem execute_order_validation_failure_no_mutation_witness :
    (executeTradeApp (initSimulator emptyGlobal "u" "beginner" 0).2 "u"
        ⟨"AAPL", "buy", 1000, "market", none⟩ 1 1).1 =
      .error .insufficientBalance ∧
    (ApiError.insufficientBalance ≠ .divisionByZero) ∧
    (executeTradeApp (initSimulator emptyGlobal "u" "beginner" 0).2 "u"
        ⟨"AAPL", "buy", 1000, "market", none⟩ 1 1).2 =
      (initSimulator emptyGlobal "u" "beginner" 0).2 := by
  have h : (executeTradeApp (initSimulator emptyGlobal "u" "beginner" 0).2 "u"
      ⟨"AAPL", "buy", 1000, "market", none⟩ 1 1).1 = .error .insufficientBalance := by
    simp [initSimulator, executeTradeApp, executeTrade, execPrice, lookupA, setA,
      STOCK_DATA, INITIAL_PRICES, initial_balances]
    norm_num
  exact ⟨h, by decide,
    execute_order_validation_failure_no_mutation _ _ _ _ _ _ h (by decide)⟩

/-! ### C5: the reported value identities -/

/-- The response of a successful trade reports `new_balance`, `portfolio`,
`total_value` and `pnl` of the stored post-trade state, with
`total_value = balance + portfolio value` and
`pnl = total_value - initial_balance`; prices are never changed by a trade. -/
theorem executeTrade_ok_view {u : String} {state : TradingSimulatorState}
    {order : TradeOrder} {trade_id t : ℕ} {journal : List TradeExecution}
    {r : TradeResult} {st2 : TradingSimulatorState} {j2 : List TradeExecution}
    (hE : executeTrade u state order trade_id t journal = (.ok r, st2, j2)) :
    r.new_balance = st2.balance ∧ r.portfolio = st2.portfolio ∧
    r.total_value = st2.balance + calculate_portfolio_value st2.portfolio st2.stock_prices ∧
    r.pnl = r.total_value - st2.initial_balance ∧
    st2.stock_prices = state.stock_prices := by
  simp only [executeTrade] at hE
  repeat' split at hE
  all_goals
    first
    | (simp only [Prod.mk.injEq] at hE
       exact absurd hE.1 (by simp))
    | (obtain ⟨hres, hst, hj⟩ := finishTrade_view hE
       injection hres with hr
       subst hr
       subst hst
       exact ⟨rfl, rfl, rfl, rfl, rfl⟩)

/-- **C5.** After every successful state query and every successful trade,
the reported values satisfy `total_value = balance + portfolio_value`,
`pnl = total_value - initial_balance`, and the portfolio value is the sum
over holdings of `shares * current price` (absent symbols contributing 0). -/
theorem value_identity_after_operations (g : GlobalState) (u : String)
    (order : TradeOrder) (trade_id t : ℕ) :
    (∀ v, getSimulatorState g u = .ok v →
      v.total_value = v.balance + v.portfolio_value ∧
      v.pnl = v.total_value - v.initial_balance ∧
      v.portfolio_value = portfolioValueSpec v.portfolio v.stock_prices)
    ∧ (∀ r g2, executeTradeApp g u order trade_id t = (.ok r, g2) →
      ∃ st, lookupA g2.simulator_db u = some st ∧
        r.new_balance = st.balance ∧ r.portfolio = st.portfolio ∧
        r.total_value = st.balance + portfolioValueSpec st.portfolio st.stock_prices ∧
        r.pnl = r.total_value - st.initial_balance) := by
  constructor
  · intro v hv
    unfold getSimulatorState at hv
    cases hu : lookupA g.simulator_db u with
    | none => rw [hu] at hv; cases hv
    | some state =>
      rw [hu] at hv
      injection hv with hv
      subst hv
      exact ⟨rfl, rfl, calculate_portfolio_value_eq _ _⟩
  · intro r g2 h
    unfold executeTradeApp at h
    cases hu : lookupA g.simulator_db u with
    | none => rw [hu] at h; simp at h
    | some state =>
      simp only [hu] at h
      rcases hE : executeTrade u state order trade_id t g.trades_db with ⟨res, st2, j2⟩
      rw [hE] at h
      dsimp only at h
      injection h with hres hg2
      subst hg2
      have hEo : executeTrade u state order trade_id t g.trades_db = (.ok r, st2, j2) :=
        hres ▸ hE
      obtain ⟨h1, h2, h3, h4, _⟩ := executeTrade_ok_view hEo
      refine ⟨st2, lookupA_setA_self _ _ _, h1, h2, ?_, h4⟩
      rw [h3, calculate_portfolio_value_eq]

/-- Witness for C5: the state query on a freshly initialized beginner
account reports `total_value = 2000 = balance + 0` and `pnl = 0`. -/
theorem value_identity_after_operations_witness :
    (∃ v, getSimulatorState (initSimulator emptyGlobal "u" "beginner" 0).2 "u" = .ok v ∧
      v.total_value = v.balance + v.portfolio_value ∧
      v.pnl = v.total_value - v.initial_balance ∧
      v.portfolio_value = portfolioValueSpec v.portfolio v.stock_prices) := by
  cases hv : getSimulatorState (initSimulator emptyGlobal "u" "beginner" 0).2 "u" with
  | error e =>
    exfalso
    revert hv
    simp [initSimulator, getSimulatorState, lookupA, setA, STOCK_DATA, INITIAL_PRICES,
      initial_balances]
  | ok v =>
    exact ⟨v, rfl,
      (value_identity_after_operations (initSimulator emptyGlobal "u" "beginner" 0).2 "u"
        ⟨"AAPL", "buy", 1, "market", none⟩ 0 0).1 v hv⟩

/-! ### C2: limit-order semantics -/

/-- `UnfavorablePrice` can arise only from the limit-favorability check. -/
theorem executeTrade_unfavorable_iff {u : String} {state : TradingSimulatorState}
    {order : TradeOrder} {trade_id t : ℕ} {journal : List TradeExecution} {cp : ℚ}
    (hcp : lookupA state.stock_prices order.symbol = some cp) :
    (executeTrade u state order trade_id t journal).1 = .error .unfavorablePrice ↔
      execPrice order cp = .error .unfavorablePrice := by
  cases hep : execPrice order cp with
  | error e =>
    constructor
    · intro h
      simp only [executeTrade, hcp, hep] at h
      injection h with h
      subst h
      rfl
    · intro h
      injection h with h
      subst h
      simp only [executeTrade, hcp, hep]
  | ok ep =>
    constructor
    · intro h
      simp only [executeTrade, hcp, hep] at h
      repeat' split at h
      all_goals exact absurd h (by simp [finishTrade])
    · intro h
      simp at h

/-- In limit mode `execPrice` is the favorability gate of `execute_trade`. -/
theorem execPrice_limit_eq (order : TradeOrder) (cp lp : ℚ)
    (hlim : order.order_type = "limit") (hlp : order.limit_price = some lp) :
    execPrice order cp =
      (if (order.action = "buy" ∧ lp < cp) ∨ (order.action = "sell" ∧ cp < lp)
       then .error .unfavorablePrice else .ok lp) := by
  simp [execPrice, hlim, hlp]

/-- A successful trade's response price and journal record carry the
execution price decided by `execPrice`, with the journal's
`total_value = execution_price * quantity`. -/
theorem executeTrade_ok_journal {u : String} {state : TradingSimulatorState}
    {order : TradeOrder} {trade_id t : ℕ} {journal : List TradeExecution} {cp ep : ℚ}
    {r : TradeResult} {st2 : TradingSimulatorState} {j2 : List TradeExecution}
    (hcp : lookupA state.stock_prices order.symbol = some cp)
    (hep : execPrice order cp = .ok ep)
    (hE : executeTrade u state order trade_id t journal = (.ok r, st2, j2)) :
    r.trade_price = ep ∧
    j2 = journal ++ [⟨trade_id, u, order.symbol, order.action, order.quantity, ep,
      ep * order.quantity, t, order.order_type⟩] := by
  simp only [executeTrade, hcp, hep] at hE
  repeat' split at hE
  all_goals
    first
    | (simp only [Prod.mk.injEq] at hE
       exact absurd hE.1 (by simp))
    | (obtain ⟨hres, hst, hj⟩ := finishTrade_view hE
       injection hres with hr
       subst hr
       exact ⟨rfl, hj⟩)

/-- **C2.** A limit buy hits the `UnfavorablePrice` error exactly when the
market price exceeds the limit price, a limit sell exactly when the market
price is below it; a filled limit order fills at the limit price (the
journal record has `price = limit` and `total_value = limit * quantity`),
and a filled market order fills at the current market price. -/
theorem limit_order_fill_semantics (u : String) (state : TradingSimulatorState)
    (order : TradeOrder) (trade_id t : ℕ) (journal : List TradeExecution) (cp lp : ℚ)
    (hcp : lookupA state.stock_prices order.symbol = some cp) :
    (order.order_type = "limit" → order.limit_price = some lp → order.action = "buy" →
      ((executeTrade u state order trade_id t journal).1 = .error .unfavorablePrice ↔
        lp < cp))
    ∧ (order.order_type = "limit" → order.limit_price = some lp → order.action = "sell" →
      ((executeTrade u state order trade_id t journal).1 = .error .unfavorablePrice ↔
        cp < lp))
    ∧ (order.order_type = "limit" → order.limit_price = some lp →
      ∀ r st2 j2, executeTrade u state order trade_id t journal = (.ok r, st2, j2) →
        r.trade_price = lp ∧
        j2 = journal ++ [⟨trade_id, u, order.symbol, order.action, order.quantity, lp,
          lp * order.quantity, t, order.order_type⟩])
    ∧ (order.order_type = "market" →
      ∀ r st2 j2, executeTrade u state order trade_id t journal = (.ok r, st2, j2) →
        r.trade_price = cp ∧
        j2 = journal ++ [⟨trade_id, u, order.symbol, order.action, order.quantity, cp,
          cp * order.quantity, t, order.order_type⟩]) := by
  refine ⟨?_, ?_, ?_, ?_⟩
  · intro hlim hlp hbuy
    rw [executeTrade_unfavorable_iff hcp, execPrice_limit_eq order cp lp hlim hlp]
    by_cases hc : lp < cp <;> simp [hbuy, hc]
  · intro hlim hlp hsell
    rw [executeTrade_unfavorable_iff hcp, execPrice_limit_eq order cp lp hlim hlp]
    by_cases hc : cp < lp <;> simp [hsell, hc]
  · intro hlim hlp r st2 j2 hE
    cases hep : execPrice order cp with
    | error e =>
      have hcontra : executeTrade u state order trade_id t journal =
          (.error e, state, journal) := by
        simp only [executeTrade, hcp, hep]
      rw [hcontra] at hE
      simp only [Prod.mk.injEq] at hE
      exact absurd hE.1 (by simp)
    | ok ep =>
      have hepl : ep = lp := by
        rw [execPrice_limit_eq order cp lp hlim hlp] at hep
        split at hep
        · cases hep
        · injection hep with h; exact h.symm
      subst hepl
      exact executeTrade_ok_journal hcp hep hE
  · intro hmkt r st2 j2 hE
    have hep : execPrice order cp = .ok cp := by
      simp [execPrice, hmkt]
    exact executeTrade_ok_journal hcp hep hE

/-- Witness for C2: a limit buy of AAPL at limit 180 against market price
175.5 is favorable, so the unfavorable-error iff evaluates to the false
comparison `180 < 175.5`. -/
theorem limit_order_fill_semantics_witness :
    lookupA [("AAPL", (351/2 : ℚ))] "AAPL" = some (351/2) ∧
    (((executeTrade "u"
        ⟨"u", "beginner", 2000, 2000, [], [("AAPL", 351/2)], 0, 0, 0, 0⟩
        ⟨"AAPL", "buy", 5, "limit", some 180⟩ 1 1 []).1 = .error .unfavorablePrice) ↔
      (180 : ℚ) < 351/2) :=
  ⟨rfl,
   (limit_order_fill_semantics "u"
      ⟨"u", "beginner", 2000, 2000, [], [("AAPL", 351/2)], 0, 0, 0, 0⟩
      ⟨"AAPL", "buy", 5, "limit", some 180⟩ 1 1 [] (351/2) 180 rfl).1 rfl rfl rfl⟩

/-! ### C4: sell-order semantics -/

/-- **C4.** For a sell on a tradeable symbol whose price step succeeded:
selling with no holding or more shares than held fails with
`InsufficientShares` and returns balance and holdings untouched; selling
exactly all held shares removes the symbol's entry from the portfolio;
a partial sell decrements the share count and keeps the average cost. -/
theorem sell_order_semantics (u : String) (state : TradingSimulatorState)
    (order : TradeOrder) (trade_id t : ℕ) (journal : List TradeExecution) (cp : ℚ)
    (hact : order.action = "sell")
    (hcp : lookupA state.stock_prices order.symbol = some cp) :
    ((lookupA state.portfolio order.symbol = none ∨
      (∃ h, lookupA state.portfolio order.symbol = some h ∧
        h.shares < order.quantity)) →
      ∀ ep, execPrice order cp = .ok ep →
      executeTrade u state order trade_id t journal =
        (.error .insufficientShares, state, journal))
    ∧ (∀ h, lookupA state.portfolio order.symbol = some h →
      h.shares = order.quantity →
      ∀ ep, execPrice order cp = .ok ep →
      ∃ r st2 j2, executeTrade u state order trade_id t journal = (.ok r, st2, j2) ∧
        lookupA st2.portfolio order.symbol = none ∧
        st2.balance = state.balance + ep * (order.quantity : ℚ))
    ∧ (∀ h, lookupA state.portfolio order.symbol = some h →
      order.quantity < h.shares →
      ∀ ep, execPrice order cp = .ok ep →
      ∃ r st2 j2, executeTrade u state order trade_id t journal = (.ok r, st2, j2) ∧
        lookupA st2.portfolio order.symbol =
          some ⟨h.shares - order.quantity, h.avg_price⟩ ∧
        st2.balance = state.balance + ep * (order.quantity : ℚ)) := by
  have hnotbuy : ¬ order.action = "buy" := by rw [hact]; decide
  refine ⟨?_, ?_, ?_⟩
  · intro hins ep hep
    simp only [executeTrade, hcp, hep]
    rw [if_neg hnotbuy, if_pos hact]
    rcases hins with hn | ⟨h, hh, hlt⟩
    · rw [hn]
    · rw [hh]
      simp only
      rw [if_pos hlt]
  · intro h hh heq ep hep
    simp only [executeTrade, hcp, hep]
    rw [if_neg hnotbuy, if_pos hact, hh]
    simp only
    rw [if_neg (show ¬ h.shares < order.quantity from heq ▸ lt_irrefl _),
      if_pos (show h.shares - order.quantity = 0 from by rw [heq, sub_self])]
    exact ⟨_, _, _, rfl, lookupA_eraseA_self _ _, rfl⟩
  · intro h hh hlt ep hep
    simp only [executeTrade, hcp, hep]
    rw [if_neg hnotbuy, if_pos hact, hh]
    simp only
    rw [if_neg (not_lt.2 (le_of_lt hlt)),
      if_neg (show ¬ h.shares - order.quantity = 0 from sub_ne_zero_of_ne (ne_of_gt hlt))]
    exact ⟨_, _, _, rfl, lookupA_setA_self _ _ _, rfl⟩

/-- Witness for C4: with a holding of 5 AAPL, a market sell of all 5
removes the AAPL entry and credits the balance. -/
theorem sell_order_semantics_witness :
    (⟨"AAPL", "sell", 5, "market", none⟩ : TradeOrder).action = "sell" ∧
    (∃ r st2 j2,
      executeTrade "u"
        ⟨"u", "beginner", 100, 2000, [("AAPL", Holding.mk 5 160)], [("AAPL", (351/2 : ℚ))],
          1, 0, 0, 0⟩
        ⟨"AAPL", "sell", 5, "market", none⟩ 2 2 [] = (.ok r, st2, j2) ∧
      lookupA st2.portfolio "AAPL" = none ∧
      st2.balance = 100 + (351/2 : ℚ) * ((5 : ℤ) : ℚ)) :=
  ⟨rfl,
   (sell_order_semantics "u"
      ⟨"u", "beginner", 100, 2000, [("AAPL", Holding.mk 5 160)], [("AAPL", (351/2 : ℚ))],
        1, 0, 0, 0⟩
      ⟨"AAPL", "sell", 5, "market", none⟩ 2 2 [] (351/2) rfl rfl).2.1
     ⟨5, 160⟩ rfl rfl (351/2) rfl⟩

/-! ### C7: a quantity-zero buy divides by zero and leaks a holding -/

/-- **C7.** `execute_trade` never checks that the quantity is positive: a
buy of quantity 0 on a tradeable symbol that is not currently held (with a
nonnegative balance) passes every validation, inserts a
`{shares: 0, avg_price: 0}` entry, and then the average-price computation
divides by `current_shares + quantity = 0`, aborting with an unhandled
`ZeroDivisionError` while the zero-share holding stays in the portfolio
and no trade is journaled. -/
theorem buy_zero_quantity_divzero (u : String) (state : TradingSimulatorState)
    (order : TradeOrder) (trade_id t : ℕ) (journal : List TradeExecution) (cp : ℚ)
    (hq : order.quantity = 0) (hbuy : order.action = "buy")
    (hmkt : order.order_type = "market")
    (hcp : lookupA state.stock_prices order.symbol = some cp)
    (hnot : lookupA state.portfolio order.symbol = none)
    (hbal : 0 ≤ state.balance) :
    (executeTrade u state order trade_id t journal).1 = .error .divisionByZero ∧
    (executeTrade u state order trade_id t journal).2.1.portfolio =
      state.portfolio ++ [(order.symbol, ⟨0, 0⟩)] ∧
    lookupA (executeTrade u state order trade_id t journal).2.1.portfolio order.symbol =
      some ⟨0, 0⟩ ∧
    (executeTrade u state order trade_id t journal).2.1.balance = state.balance ∧
    (executeTrade u state order trade_id t journal).2.1.trade_count = state.trade_count ∧
    (executeTrade u state order trade_id t journal).2.2 = journal := by
  have hep : execPrice order cp = .ok cp := by
    simp [execPrice, hmkt]
  have hcur : lookupA (state.portfolio ++ [(order.symbol, (⟨0, 0⟩ : Holding))])
      order.symbol = some ⟨0, 0⟩ := by
    rw [lookupA_append _ _ _ hnot]
    simp [lookupA]
  have hnolt : ¬ state.balance < cp * (order.quantity : ℚ) := by
    rw [hq]
    push_cast
    rw [mul_zero]
    exact not_lt.2 hbal
  simp only [executeTrade, hcp, hep]
  rw [if_pos hbuy, if_neg hnolt, if_neg (show ¬ (lookupA state.portfolio
    order.symbol).isSome = true from by rw [hnot]; decide)]
  rw [hcur]
  simp only [Option.getD_some]
  rw [if_pos (show (Holding.mk 0 0).shares + order.quantity = 0 from by
    rw [hq]; rfl)]
  refine ⟨rfl, rfl, hcur, ?_, rfl, rfl⟩
  show state.balance - cp * (order.quantity : ℚ) = state.balance
  rw [hq]
  push_cast
  ring

/-- Witness for C7: buying 0 GOOGL against a fresh-like state not holding
GOOGL raises the division-by-zero error and leaves a zero-share entry. -/
theorem buy_zero_quantity_divzero_witness :
    (0 : ℚ) ≤ 2000 ∧
    ((executeTrade "u"
        ⟨"u", "beginner", 2000, 2000, [], [("GOOGL", (714/5 : ℚ))], 0, 0, 0, 0⟩
        ⟨"GOOGL", "buy", 0, "market", none⟩ 3 3 []).1 = .error .divisionByZero ∧
      (executeTrade "u"
        ⟨"u", "beginner", 2000, 2000, [], [("GOOGL", (714/5 : ℚ))], 0, 0, 0, 0⟩
        ⟨"GOOGL", "buy", 0, "market", none⟩ 3 3 []).2.1.portfolio =
        [] ++ [("GOOGL", ⟨0, 0⟩)] ∧
      lookupA (executeTrade "u"
        ⟨"u", "beginner", 2000, 2000, [], [("GOOGL", (714/5 : ℚ))], 0, 0, 0, 0⟩
        ⟨"GOOGL", "buy", 0, "market", none⟩ 3 3 []).2.1.portfolio "GOOGL" =
        some ⟨0, 0⟩ ∧
      (executeTrade "u"
        ⟨"u", "beginner", 2000, 2000, [], [("GOOGL", (714/5 : ℚ))], 0, 0, 0, 0⟩
        ⟨"GOOGL", "buy", 0, "market", none⟩ 3 3 []).2.1.balance = 2000 ∧
      (executeTrade "u"
        ⟨"u", "beginner", 2000, 2000, [], [("GOOGL", (714/5 : ℚ))], 0, 0, 0, 0⟩
        ⟨"GOOGL", "buy", 0, "market", none⟩ 3 3 []).2.1.trade_count = 0 ∧
      (executeTrade "u"
        ⟨"u", "beginner", 2000, 2000, [], [("GOOGL", (714/5 : ℚ))], 0, 0, 0, 0⟩
        ⟨"GOOGL", "buy", 0, "market", none⟩ 3 3 []).2.2 = []) :=
  ⟨by norm_num,
   buy_zero_quantity_divzero "u"
     ⟨"u", "beginner", 2000, 2000, [], [("GOOGL", (714/5 : ℚ))], 0, 0, 0, 0⟩
     ⟨"GOOGL", "buy", 0, "market", none⟩ 3 3 [] (714/5)
     rfl rfl rfl rfl rfl (by norm_num)⟩

/-! ### C3: weighted-average cost over a sequence of buys -/

/-- The holding a buy reads: an absent symbol counts as
`{shares: 0, avg_price: 0}` (the entry `execute_trade` inserts). -/
def holdingOf (st : TradingSimulatorState) (s : String) : Holding :=
  (lookupA st.portfolio s).getD ⟨0, 0⟩

/-- Total quantity of a list of journal records, in ℚ. -/
def sumQty (l : List TradeExecution) : ℚ :=
  (l.map (fun rec => (rec.quantity : ℚ))).sum

/-- Total cost (fill price times quantity) of a list of journal records. -/
def sumCost (l : List TradeExecution) : ℚ :=
  (l.map (fun rec => (rec.quantity : ℚ) * rec.price)).sum

/-- The `if symbol not in portfolio: insert {0,0}` step of a buy always
leaves the symbol bound to its previous holding, defaulted to `⟨0,0⟩`. -/
theorem lookupA_insertDefault (l : List (String × Holding)) (k : String) :
    lookupA (if (lookupA l k).isSome then l else l ++ [(k, ⟨0, 0⟩)]) k =
      some ((lookupA l k).getD ⟨0, 0⟩) := by
  cases h : lookupA l k with
  | some v => simp [h]
  | none => simp [h, lookupA_append _ _ _ h, lookupA]

/-- One successful buy: the journal gains one record at some fill price
`p`, the balance is debited `p * quantity`, and the symbol's holding
becomes the weighted-average update of the code. -/
theorem executeTrade_buy_ok {u : String} {state : TradingSimulatorState}
    {order : TradeOrder} {trade_id t : ℕ} {journal : List TradeExecution}
    {r : TradeResult} {st2 : TradingSimulatorState} {j2 : List TradeExecution}
    (hbuy : order.action = "buy")
    (hE : executeTrade u state order trade_id t journal = (.ok r, st2, j2)) :
    ∃ p : ℚ,
      j2 = journal ++ [⟨trade_id, u, order.symbol, order.action, order.quantity, p,
        p * order.quantity, t, order.order_type⟩] ∧
      (holdingOf state order.symbol).shares + order.quantity ≠ 0 ∧
      lookupA st2.portfolio order.symbol = some
        ⟨(holdingOf state order.symbol).shares + order.quantity,
         (((holdingOf state order.symbol).shares : ℚ) *
            (holdingOf state order.symbol).avg_price +
          (order.quantity : ℚ) * p) /
         (((holdingOf state order.symbol).shares + order.quantity : ℤ) : ℚ)⟩ ∧
      st2.balance = state.balance - p * (order.quantity : ℚ) := by
  cases hcp : lookupA state.stock_prices order.symbol with
  | none =>
    simp only [executeTrade, hcp, Prod.mk.injEq] at hE
    exact absurd hE.1 (by simp)
  | some cp =>
    cases hep : execPrice order cp with
    | error e =>
      simp only [executeTrade, hcp, hep, Prod.mk.injEq] at hE
      exact absurd hE.1 (by simp)
    | ok ep =>
      simp only [executeTrade, hcp, hep] at hE
      rw [if_pos hbuy] at hE
      split at hE
      · simp only [Prod.mk.injEq] at hE
        exact absurd hE.1 (by simp)
      · rw [lookupA_insertDefault state.portfolio order.symbol] at hE
        simp only [Option.getD_some] at hE
        split at hE
        · simp only [Prod.mk.injEq] at hE
          exact absurd hE.1 (by simp)
        next hnz =>
          obtain ⟨hres, hst, hj⟩ := finishTrade_view hE
          refine ⟨ep, hj, hnz, ?_, ?_⟩
          · rw [hst]
            exact lookupA_setA_self _ _ _
          · rw [hst]

/-- Run a list of (order, trade id, timestamp) through `execute_trade`;
the Bool records whether every order succeeded. -/
def runTrades (u : String) :
    TradingSimulatorState → List TradeExecution → List (TradeOrder × ℕ × ℕ) →
      TradingSimulatorState × List TradeExecution × Bool
  | state, journal, [] => (state, journal, true)
  | state, journal, (o, trade_id, t) :: rest =>
    match executeTrade u state o trade_id t journal with
    | (.ok _, st2, j2) => runTrades u st2 j2 rest
    | (.error _, st2, j2) => (st2, j2, false)

/-- Induction core for C3: over any all-buy run on one symbol, the shares
add up and the cost basis (`shares * avg_price`) accumulates
`quantity * fill price` of exactly the appended journal records. -/
theorem runTrades_buys (u s : String) :
    ∀ (orders : List (TradeOrder × ℕ × ℕ)) (state : TradingSimulatorState)
      (journal : List TradeExecution),
      (∀ x ∈ orders, x.1.action = "buy" ∧ x.1.symbol = s) →
      (runTrades u state journal orders).2.2 = true →
      ∃ added : List TradeExecution,
        (runTrades u state journal orders).2.1 = journal ++ added ∧
        ((holdingOf (runTrades u state journal orders).1 s).shares : ℚ) =
          ((holdingOf state s).shares : ℚ) + sumQty added ∧
        ((holdingOf (runTrades u state journal orders).1 s).shares : ℚ) *
            (holdingOf (runTrades u state journal orders).1 s).avg_price =
          ((holdingOf state s).shares : ℚ) * (holdingOf state s).avg_price +
            sumCost added ∧
        (orders ≠ [] →
          lookupA (runTrades u state journal orders).1.portfolio s =
            some (holdingOf (runTrades u state journal orders).1 s) ∧
          (holdingOf (runTrades u state journal orders).1 s).shares ≠ 0) := by
  intro orders
  induction orders with
  | nil =>
    intro state journal _ _
    refine ⟨[], by simp [runTrades], by simp [runTrades, sumQty], by simp [runTrades, sumCost], ?_⟩
    intro h
    exact absurd rfl h
  | cons x rest ih =>
    rcases x with ⟨o, trade_id, t⟩
    intro state journal horders hok
    obtain ⟨hbuy, hsym⟩ := horders _ (List.mem_cons_self _ _)
    dsimp only at hbuy hsym
    have hrest : ∀ y ∈ rest, y.1.action = "buy" ∧ y.1.symbol = s :=
      fun y hy => horders y (List.mem_cons_of_mem _ hy)
    rcases hE : executeTrade u state o trade_id t journal with ⟨res, st2, j2⟩
    cases res with
    | error e =>
      rw [runTrades, hE] at hok
      cases hok
    | ok r =>
      simp only [runTrades, hE] at hok ⊢
      obtain ⟨p, hj2, hnz, hlook, _⟩ := executeTrade_buy_ok hbuy hE
      rw [hsym] at hj2 hnz hlook
      obtain ⟨added', haj, hshares, hcost, hlast⟩ := ih st2 j2 hrest hok
      have hold2 : holdingOf st2 s =
          ⟨(holdingOf state s).shares + o.quantity,
           (((holdingOf state s).shares : ℚ) * (holdingOf state s).avg_price +
             (o.quantity : ℚ) * p) /
           (((holdingOf state s).shares + o.quantity : ℤ) : ℚ)⟩ := by
        rw [holdingOf, hlook, Option.getD_some]
      have hnzQ : (((holdingOf state s).shares + o.quantity : ℤ) : ℚ) ≠ 0 :=
        Int.cast_ne_zero.mpr hnz
      refine ⟨⟨trade_id, u, s, o.action, o.quantity, p, p * o.quantity, t,
        o.order_type⟩ :: added', ?_, ?_, ?_, ?_⟩
      · rw [haj, hj2, List.append_assoc]
        rfl
      · rw [hshares, hold2]
        simp only [sumQty, List.map_cons, List.sum_cons]
        push_cast
        ring
      · rw [hcost, hold2]
        simp only [sumCost, List.map_cons, List.sum_cons]
        have hbasis :
            ((((holdingOf state s).shares + o.quantity : ℤ) : ℚ)) *
              ((((holdingOf state s).shares : ℚ) * (holdingOf state s).avg_price +
                (o.quantity : ℚ) * p) /
               (((holdingOf state s).shares + o.quantity : ℤ) : ℚ)) =
            ((holdingOf state s).shares : ℚ) * (holdingOf state s).avg_price +
              (o.quantity : ℚ) * p := mul_div_cancel₀ _ hnzQ
        push_cast at hbasis ⊢
        rw [hbasis]
        ring
      · intro _
        cases rest with
        | nil =>
          refine ⟨?_, ?_⟩
          · rw [runTrades, holdingOf, hlook]
            rfl
          · rw [runTrades, holdingOf, hlook, Option.getD_some]
            exact hnz
        | cons y rest2 =>
          exact hlast (by simp)

/-- **C3.** A nonempty sequence of successful buys on one symbol leaves
that symbol's holding with shares = old shares + total bought quantity and
average cost = (old cost basis + Σ quantityᵢ·fill priceᵢ) / total shares,
the fill prices and quantities being exactly those of the journal records
the run appended; an absent starting holding counts as shares 0, avg 0. -/
theorem buy_sequence_weighted_average (u s : String) (state : TradingSimulatorState)
    (journal : List TradeExecution) (orders : List (TradeOrder × ℕ × ℕ))
    (horders : ∀ x ∈ orders, x.1.action = "buy" ∧ x.1.symbol = s)
    (hne : orders ≠ [])
    (hok : (runTrades u state journal orders).2.2 = true) :
    ∃ added : List TradeExecution, ∃ hfin : Holding,
      (runTrades u state journal orders).2.1 = journal ++ added ∧
      lookupA (runTrades u state journal orders).1.portfolio s = some hfin ∧
      (hfin.shares : ℚ) = ((holdingOf state s).shares : ℚ) + sumQty added ∧
      hfin.avg_price =
        (((holdingOf state s).shares : ℚ) * (holdingOf state s).avg_price +
          sumCost added) /
        (((holdingOf state s).shares : ℚ) + sumQty added) := by
  obtain ⟨added, haj, hshares, hcost, hlast⟩ :=
    runTrades_buys u s orders state journal horders hok
  obtain ⟨hlook, hnz⟩ := hlast hne
  refine ⟨added, holdingOf (runTrades u state journal orders).1 s, haj, hlook, hshares, ?_⟩
  have hnzQ : ((holdingOf (runTrades u state journal orders).1 s).shares : ℚ) ≠ 0 :=
    Int.cast_ne_zero.mpr hnz
  rw [← hshares]
  field_simp
  rw [mul_comm] at hcost
  exact hcost

/-- Witness for C3: from an empty portfolio, a market buy of 1 AAPL at
175.5 followed by a limit buy of 3 AAPL filling at 180 succeeds, and the
theorem yields the weighted average (175.5 + 3*180)/4 from the journal. -/
theorem buy_sequence_weighted_average_witness :
    (runTrades "u" ⟨"u", "beginner", 2000, 2000, [], [("AAPL", (351/2 : ℚ))], 0, 0, 0, 0⟩
        []
        [(⟨"AAPL", "buy", 1, "market", none⟩, 1, 1),
         (⟨"AAPL", "buy", 3, "limit", some 180⟩, 2, 2)]).2.2 = true ∧
    (∃ added : List TradeExecution, ∃ hfin : Holding,
      (runTrades "u" ⟨"u", "beginner", 2000, 2000, [], [("AAPL", (351/2 : ℚ))], 0, 0, 0, 0⟩
        []
        [(⟨"AAPL", "buy", 1, "market", none⟩, 1, 1),
         (⟨"AAPL", "buy", 3, "limit", some 180⟩, 2, 2)]).2.1 = [] ++ added ∧
      lookupA (runTrades "u"
        ⟨"u", "beginner", 2000, 2000, [], [("AAPL", (351/2 : ℚ))], 0, 0, 0, 0⟩
        []
        [(⟨"AAPL", "buy", 1, "market", none⟩, 1, 1),
         (⟨"AAPL", "buy", 3, "limit", some 180⟩, 2, 2)]).1.portfolio "AAPL" = some hfin ∧
      (hfin.shares : ℚ) =
        ((holdingOf ⟨"u", "beginner", 2000, 2000, [], [("AAPL", (351/2 : ℚ))], 0, 0, 0, 0⟩
          "AAPL").shares : ℚ) + sumQty added ∧
      hfin.avg_price =
        (((holdingOf ⟨"u", "beginner", 2000, 2000, [], [("AAPL", (351/2 : ℚ))], 0, 0, 0, 0⟩
            "AAPL").shares : ℚ) *
          (holdingOf ⟨"u", "beginner", 2000, 2000, [], [("AAPL", (351/2 : ℚ))], 0, 0, 0, 0⟩
            "AAPL").avg_price + sumCost added) /
        (((holdingOf ⟨"u", "beginner", 2000, 2000, [], [("AAPL", (351/2 : ℚ))], 0, 0, 0, 0⟩
            "AAPL").shares : ℚ) + sumQty added)) := by
  have hok : (runTrades "u"
      ⟨"u", "beginner", 2000, 2000, [], [("AAPL", (351/2 : ℚ))], 0, 0, 0, 0⟩
      []
      [(⟨"AAPL", "buy", 1, "market", none⟩, 1, 1),
       (⟨"AAPL", "buy", 3, "limit", some 180⟩, 2, 2)]).2.2 = true := by
    simp [runTrades, executeTrade, execPrice, finishTrade, lookupA, setA,
      eraseA, calculate_portfolio_value]
    norm_num
    simp [lookupA]
    norm_num
  exact ⟨hok, buy_sequence_weighted_average "u" "AAPL" _ _ _ (by decide)
    (List.cons_ne_nil _ _) hok⟩

/-! ### C10: trade-history ordering, filtering and truncation -/

/-- **C10 (amended).** `get_trade_history` returns only the user's trades,
in non-increasing timestamp order, truncated to at most `limit` entries,
with `total_trades` the untruncated match count; the order is strictly
descending whenever the user's trades have pairwise-distinct timestamps.
(The claim's unconditional "strictly ordered" fails on timestamp ties,
which CPython's stable sort leaves in insertion order.) -/
theorem trade_history_ordering_spec (g : GlobalState) (u : String) (limit : ℕ) :
    (∀ tr ∈ (getTradeHistory g u limit).trades, tr.user_id = u)
    ∧ List.Chain' (fun a b => b.timestamp ≤ a.timestamp) (getTradeHistory g u limit).trades
    ∧ (getTradeHistory g u limit).trades.length ≤ limit
    ∧ (getTradeHistory g u limit).total_trades =
        (g.trades_db.filter (fun tr => tr.user_id == u)).length
    ∧ ((g.trades_db.filter (fun tr => tr.user_id == u)).Pairwise
          (fun a b => a.timestamp ≠ b.timestamp) →
        List.Chain' (fun a b => b.timestamp < a.timestamp)
          (getTradeHistory g u limit).trades) := by
  have hsortedB := @List.sorted_mergeSort TradeExecution
    (fun a b : TradeExecution => b.timestamp ≤ a.timestamp)
    (fun a b c hab hbc => by
      simp only [decide_eq_true_eq] at hab hbc ⊢
      omega)
    (fun a b => by
      simp only [Bool.or_eq_true, decide_eq_true_eq]
      omega)
    (g.trades_db.filter (fun tr => tr.user_id == u))
  have hsorted : ((g.trades_db.filter (fun tr => tr.user_id == u)).mergeSort
      (fun a b => b.timestamp ≤ a.timestamp)).Pairwise
      (fun a b => b.timestamp ≤ a.timestamp) :=
    hsortedB.imp (fun h => by simpa using h)
  refine ⟨?_, ?_, ?_, rfl, ?_⟩
  · intro tr htr
    have h1 : tr ∈ (g.trades_db.filter (fun tr => tr.user_id == u)).mergeSort
        (fun a b => b.timestamp ≤ a.timestamp) := List.mem_of_mem_take htr
    have h2 : tr ∈ g.trades_db.filter (fun tr => tr.user_id == u) :=
      List.mem_mergeSort.1 h1
    exact eq_of_beq (List.mem_filter.1 h2).2
  · exact (hsorted.sublist (List.take_sublist _ _)).chain'
  · show (((g.trades_db.filter (fun tr => tr.user_id == u)).mergeSort
      (fun a b => b.timestamp ≤ a.timestamp)).take limit).length ≤ limit
    rw [List.length_take]
    exact min_le_left _ _
  · intro hdist
    have hdist2 : ((g.trades_db.filter (fun tr => tr.user_id == u)).mergeSort
        (fun a b => b.timestamp ≤ a.timestamp)).Pairwise
        (fun a b => a.timestamp ≠ b.timestamp) :=
      ((List.mergeSort_perm _ _).pairwise_iff (fun h => Ne.symm h)).2 hdist
    have hstrict := (hsorted.and hdist2).imp
      (fun h => lt_of_le_of_ne h.1 (fun e => h.2 e.symm))
    exact (hstrict.sublist (List.take_sublist _ _)).chain'

/-- Counterexample for C10 as frozen: two trades of the same user with
equal timestamps are returned in insertion order (stable sort), so the
output is not *strictly* descending by timestamp. -/
theorem history_not_strictly_descending_on_ties :
    (getTradeHistory ⟨[], [⟨0, "u", "AAPL", "buy", 1, 10, 10, 5, "market"⟩,
        ⟨1, "u", "AAPL", "buy", 2, 10, 20, 5, "market"⟩]⟩ "u" 50).trades =
      [⟨0, "u", "AAPL", "buy", 1, 10, 10, 5, "market"⟩,
       ⟨1, "u", "AAPL", "buy", 2, 10, 20, 5, "market"⟩] ∧
    ¬ List.Chain' (fun a b => b.timestamp < a.timestamp)
      (getTradeHistory ⟨[], [⟨0, "u", "AAPL", "buy", 1, 10, 10, 5, "market"⟩,
        ⟨1, "u", "AAPL", "buy", 2, 10, 20, 5, "market"⟩]⟩ "u" 50).trades := by
  have hfil : (List.filter (fun tr => tr.user_id == "u")
      [(⟨0, "u", "AAPL", "buy", 1, 10, 10, 5, "market"⟩ : TradeExecution),
       ⟨1, "u", "AAPL", "buy", 2, 10, 20, 5, "market"⟩]) =
      [⟨0, "u", "AAPL", "buy", 1, 10, 10, 5, "market"⟩,
       ⟨1, "u", "AAPL", "buy", 2, 10, 20, 5, "market"⟩] := by decide
  have htr : (getTradeHistory ⟨[], [⟨0, "u", "AAPL", "buy", 1, 10, 10, 5, "market"⟩,
      ⟨1, "u", "AAPL", "buy", 2, 10, 20, 5, "market"⟩]⟩ "u" 50).trades =
      [⟨0, "u", "AAPL", "buy", 1, 10, 10, 5, "market"⟩,
       ⟨1, "u", "AAPL", "buy", 2, 10, 20, 5, "market"⟩] := by
    show ((List.filter (fun tr => tr.user_id == "u")
        [(⟨0, "u", "AAPL", "buy", 1, 10, 10, 5, "market"⟩ : TradeExecution),
         ⟨1, "u", "AAPL", "buy", 2, 10, 20, 5, "market"⟩]).mergeSort
        (fun a b => b.timestamp ≤ a.timestamp)).take 50 =
      [⟨0, "u", "AAPL", "buy", 1, 10, 10, 5, "market"⟩,
       ⟨1, "u", "AAPL", "buy", 2, 10, 20, 5, "market"⟩]
    rw [hfil, List.mergeSort_of_sorted (by decide)]
    rfl
  exact ⟨htr, by rw [htr]; simp [List.chain'_cons]⟩

/-- Witness for C10's amended theorem: instantiated on the tie journal
above, where the distinct-timestamps hypothesis indeed fails but all
unconditional conjuncts hold. -/
theorem trade_history_ordering_spec_witness :
    (∀ tr ∈ (getTradeHistory ⟨[], [⟨0, "u", "AAPL", "buy", 1, 10, 10, 5, "market"⟩,
        ⟨1, "u", "AAPL", "buy", 2, 10, 20, 5, "market"⟩]⟩ "u" 50).trades,
      tr.user_id = "u") ∧
    List.Chain' (fun a b => b.timestamp ≤ a.timestamp)
      (getTradeHistory ⟨[], [⟨0, "u", "AAPL", "buy", 1, 10, 10, 5, "market"⟩,
        ⟨1, "u", "AAPL", "buy", 2, 10, 20, 5, "market"⟩]⟩ "u" 50).trades ∧
    (getTradeHistory ⟨[], [⟨0, "u", "AAPL", "buy", 1, 10, 10, 5, "market"⟩,
        ⟨1, "u", "AAPL", "buy", 2, 10, 20, 5, "market"⟩]⟩ "u" 50).trades.length ≤ 50 :=
  ⟨(trade_history_ordering_spec ⟨[], [⟨0, "u", "AAPL", "buy", 1, 10, 10, 5, "market"⟩,
      ⟨1, "u", "AAPL", "buy", 2, 10, 20, 5, "market"⟩]⟩ "u" 50).1,
   (trade_history_ordering_spec ⟨[], [⟨0, "u", "AAPL", "buy", 1, 10, 10, 5, "market"⟩,
      ⟨1, "u", "AAPL", "buy", 2, 10, 20, 5, "market"⟩]⟩ "u" 50).2.1,
   (trade_history_ordering_spec ⟨[], [⟨0, "u", "AAPL", "buy", 1, 10, 10, 5, "market"⟩,
      ⟨1, "u", "AAPL", "buy", 2, 10, 20, 5, "market"⟩]⟩ "u" 50).2.2.1⟩

/-! ### C6: is the cash balance always nonnegative? -/

/-- One core operation of the simulator, with its nondeterministic inputs
(timestamps, trade ids, random draws) made explicit. -/
inductive Op where
  | initOp (level : String) (t : ℕ)
  | tradeOp (order : TradeOrder) (trade_id t : ℕ)
  | tickOp (draws : String → ℚ) (t : ℕ)
  | stateOp
  | historyOp (limit : ℕ)

/-- Apply one operation for one user.  The state query and the history
query are read-only and return the store unchanged. -/
def stepOp (g : GlobalState) (u : String) : Op → GlobalState
  | .initOp level t => (initSimulator g u level t).2
  | .tradeOp order trade_id t => (executeTradeApp g u order trade_id t).2
  | .tickOp draws t => (updateStockPrices g u draws t).2
  | .stateOp => g
  | .historyOp _ => g

/-- Run a sequence of (user, operation) requests. -/
def runOps : GlobalState → List (String × Op) → GlobalState
  | g, [] => g
  | g, (u, op) :: rest => runOps (stepOp g u op) rest

/-- A well-formed order in the sense of the spec's data model: positive
quantity, and a nonnegative limit price when one is given. -/
def goodOrder (o : TradeOrder) : Prop :=
  0 < o.quantity ∧ 0 ≤ o.limit_price.getD 0

/-- Well-formedness of an operation: trades carry well-formed orders and
price ticks draw percentage changes ≥ -100% (the code draws from
[-2%, +2%]). -/
def goodOp : Op → Prop
  | .tradeOp o _ _ => goodOrder o
  | .tickOp draws _ => ∀ s, -1 ≤ draws s
  | _ => True

/-- Every session in the store has a nonnegative cash balance and
nonnegative prices. -/
def nonnegState (g : GlobalState) : Prop :=
  ∀ e ∈ g.simulator_db, 0 ≤ e.2.balance ∧ ∀ pe ∈ e.2.stock_prices, 0 ≤ pe.2

theorem pyRound_nonneg (x : ℚ) (h : 0 ≤ x) : 0 ≤ pyRound x := by
  have hf : (0 : ℤ) ≤ ⌊x⌋ := Int.floor_nonneg.mpr h
  simp only [pyRound]
  split
  · exact hf
  · split
    · omega
    · split <;> omega

theorem round2_nonneg (x : ℚ) (h : 0 ≤ x) : 0 ≤ round2 x := by
  have h1 : (0 : ℤ) ≤ pyRound (x * 100) :=
    pyRound_nonneg _ (mul_nonneg h (by norm_num))
  have h2 : (0 : ℚ) ≤ (pyRound (x * 100) : ℚ) := by exact_mod_cast h1
  exact div_nonneg h2 (by norm_num)

theorem simulate_price_change_nonneg (p ε : ℚ) (hp : 0 ≤ p) (hε : -1 ≤ ε) :
    0 ≤ simulate_price_change p ε :=
  round2_nonneg _ (mul_nonneg hp (by linarith))

/-- The execution price is either the market price or the given limit. -/
theorem execPrice_ok_cases {order : TradeOrder} {cp ep : ℚ}
    (h : execPrice order cp = .ok ep) : ep = cp ∨ order.limit_price = some ep := by
  simp only [execPrice] at h
  split at h
  · split at h
    · cases h
    · split at h
      · cases h
      · injection h with h
        subst h
        right
        assumption
  · injection h with h
    subst h
    left
    rfl

/-- A trade never changes the price table. -/
theorem executeTrade_prices_const (u : String) (state : TradingSimulatorState)
    (order : TradeOrder) (trade_id t : ℕ) (journal : List TradeExecution) :
    (executeTrade u state order trade_id t journal).2.1.stock_prices =
      state.stock_prices := by
  simp only [executeTrade]
  repeat' split
  all_goals rfl

/-- Given a well-formed order, nonnegative prices and a nonnegative
balance, the balance after `execute_trade` is still nonnegative: a buy is
gated by the balance check, a sell credits a nonnegative amount. -/
theorem executeTrade_balance_nonneg (u : String) (state : TradingSimulatorState)
    (order : TradeOrder) (trade_id t : ℕ) (journal : List TradeExecution)
    (hq : 0 < order.quantity) (hlp : 0 ≤ order.limit_price.getD 0)
    (hbal : 0 ≤ state.balance) (hpr : ∀ pe ∈ state.stock_prices, 0 ≤ pe.2) :
    0 ≤ (executeTrade u state order trade_id t journal).2.1.balance := by
  cases hcp : lookupA state.stock_prices order.symbol with
  | none => simp only [executeTrade, hcp]; exact hbal
  | some cp =>
    have hcp0 : 0 ≤ cp := hpr (order.symbol, cp) (lookupA_mem _ _ _ hcp)
    cases hep : execPrice order cp with
    | error e => simp only [executeTrade, hcp, hep]; exact hbal
    | ok ep =>
      have hep0 : 0 ≤ ep := by
        rcases execPrice_ok_cases hep with h | h
        · rw [h]; exact hcp0
        · rw [h] at hlp; simpa using hlp
      have hq0 : (0 : ℚ) ≤ (order.quantity : ℚ) := by
        exact_mod_cast le_of_lt hq
      simp only [executeTrade, hcp, hep]
      split
      · -- buy
        split
        · exact hbal
        next hno =>
          have hle : ep * (order.quantity : ℚ) ≤ state.balance := le_of_not_lt hno
          split <;> split <;> exact sub_nonneg.2 hle
      · split
        · -- sell
          split
          · exact hbal
          · split
            · exact hbal
            · show 0 ≤ state.balance + ep * (order.quantity : ℚ)
              have := mul_nonneg hep0 hq0
              linarith
        · exact hbal

theorem lookupA_getD_nonneg (l : List (String × ℚ)) (k : String)
    (h : ∀ e ∈ l, 0 ≤ e.2) : (0 : ℚ) ≤ (lookupA l k).getD 0 := by
  cases hk : lookupA l k with
  | none => simp
  | some v => simpa using h (k, v) (lookupA_mem _ _ _ hk)

theorem INITIAL_PRICES_nonneg : ∀ e ∈ INITIAL_PRICES, (0 : ℚ) ≤ e.2 := by
  norm_num [INITIAL_PRICES]

theorem initial_balances_nonneg : ∀ e ∈ initial_balances, (0 : ℚ) ≤ e.2 := by
  norm_num [initial_balances]

/-- One well-formed operation preserves the nonnegativity invariant. -/
theorem stepOp_nonneg (g : GlobalState) (u : String) (op : Op)
    (hg : nonnegState g) (hop : goodOp op) : nonnegState (stepOp g u op) := by
  cases op with
  | stateOp => exact hg
  | historyOp limit => exact hg
  | initOp level t =>
    show nonnegState (initSimulator g u level t).2
    rw [initSimulator]
    split
    · intro e he
      rcases mem_setA _ _ _ _ he with h | h
      · exact hg e h
      · subst h
        refine ⟨lookupA_getD_nonneg _ _ initial_balances_nonneg, ?_⟩
        intro pe hpe
        obtain ⟨s, _, rfl⟩ := List.mem_map.1 hpe
        exact lookupA_getD_nonneg _ _ INITIAL_PRICES_nonneg
    · exact hg
  | tradeOp order trade_id t =>
    show nonnegState (executeTradeApp g u order trade_id t).2
    rw [executeTradeApp]
    cases hu : lookupA g.simulator_db u with
    | none => exact hg
    | some state =>
      obtain ⟨hbal, hpr⟩ := hg (u, state) (lookupA_mem _ _ _ hu)
      intro e he
      rcases mem_setA _ _ _ _ he with h | h
      · exact hg e h
      · subst h
        constructor
        · exact executeTrade_balance_nonneg u state order trade_id t g.trades_db
            hop.1 hop.2 hbal hpr
        · rw [executeTrade_prices_const]
          exact hpr
  | tickOp draws t =>
    show nonnegState (updateStockPrices g u draws t).2
    rw [updateStockPrices]
    cases hu : lookupA g.simulator_db u with
    | none => exact hg
    | some state =>
      obtain ⟨hbal, hpr⟩ := hg (u, state) (lookupA_mem _ _ _ hu)
      intro e he
      rcases mem_setA _ _ _ _ he with h | h
      · exact hg e h
      · subst h
        refine ⟨hbal, ?_⟩
        intro pe hpe
        obtain ⟨e0, he0, rfl⟩ := List.mem_map.1 hpe
        exact simulate_price_change_nonneg _ _ (hpr e0 he0) (hop e0.1)

/-- **C6 (amended).** Starting from any store satisfying the invariant (in
particular a fresh one), any sequence of operations whose orders have
positive quantity and nonnegative limit prices, and whose ticks draw
changes ≥ -100%, keeps every account's balance (and every price) ≥ 0.
As frozen the claim is false: without these input restrictions a sell with
a negative limit price drives the balance negative (see the
counterexample). -/
theorem balance_nonneg_for_wellformed_runs (g : GlobalState)
    (ops : List (String × Op)) (hg : nonnegState g)
    (hops : ∀ x ∈ ops, goodOp x.2) : nonnegState (runOps g ops) := by
  induction ops generalizing g with
  | nil => exact hg
  | cons x rest ih =>
    rcases x with ⟨u, op⟩
    rw [runOps]
    exact ih (stepOp g u op)
      (stepOp_nonneg g u op hg (hops (u, op) (List.mem_cons_self _ _)))
      (fun y hy => hops y (List.mem_cons_of_mem _ hy))

/-- Counterexample for C6 as frozen: from a fresh beginner account, buy 5
AAPL at market, then sell 5 AAPL with a limit price of -1000.  The sell
passes every check (market 175.5 ≥ -1000 is "favorable", 5 shares are
held) and credits 5 × (-1000), leaving balance -3877.5 < 0. -/
theorem balance_negative_reachable :
    (lookupA (runOps emptyGlobal
      [("u", .initOp "beginner" 0),
       ("u", .tradeOp ⟨"AAPL", "buy", 5, "market", none⟩ 1 1),
       ("u", .tradeOp ⟨"AAPL", "sell", 5, "limit", some (-1000)⟩ 2 2)]).simulator_db
      "u").map (fun st => st.balance) = some (-7755/2) ∧
    ¬ nonnegState (runOps emptyGlobal
      [("u", .initOp "beginner" 0),
       ("u", .tradeOp ⟨"AAPL", "buy", 5, "market", none⟩ 1 1),
       ("u", .tradeOp ⟨"AAPL", "sell", 5, "limit", some (-1000)⟩ 2 2)]) := by
  have hbal : (lookupA (runOps emptyGlobal
      [("u", .initOp "beginner" 0),
       ("u", .tradeOp ⟨"AAPL", "buy", 5, "market", none⟩ 1 1),
       ("u", .tradeOp ⟨"AAPL", "sell", 5, "limit", some (-1000)⟩ 2 2)]).simulator_db
      "u").map (fun st => st.balance) = some (-7755/2) := by
    simp [runOps, stepOp, emptyGlobal, initSimulator, executeTradeApp, executeTrade,
      execPrice, finishTrade, lookupA, setA, eraseA, calculate_portfolio_value,
      STOCK_DATA, INITIAL_PRICES, initial_balances]
    norm_num
    simp [lookupA, setA, eraseA]
    norm_num
  refine ⟨hbal, ?_⟩
  intro hinv
  cases hlook : lookupA (runOps emptyGlobal
      [("u", .initOp "beginner" 0),
       ("u", .tradeOp ⟨"AAPL", "buy", 5, "market", none⟩ 1 1),
       ("u", .tradeOp ⟨"AAPL", "sell", 5, "limit", some (-1000)⟩ 2 2)]).simulator_db
      "u" with
  | none => rw [hlook] at hbal; cases hbal
  | some st =>
    rw [hlook] at hbal
    have hb : st.balance = -7755/2 := by
      injection hbal
    have h0 := (hinv ("u", st) (lookupA_mem _ _ _ hlook)).1
    rw [hb] at h0
    norm_num at h0

/-- Witness for C6's amended theorem: a fresh store, an init and a
well-formed market buy keep the invariant. -/
theorem balance_nonneg_for_wellformed_runs_witness :
    nonnegState emptyGlobal ∧
    (∀ x ∈ [("u", Op.initOp "beginner" 0),
            ("u", Op.tradeOp ⟨"AAPL", "buy", 5, "market", none⟩ 1 1)], goodOp x.2) ∧
    nonnegState (runOps emptyGlobal
      [("u", Op.initOp "beginner" 0),
       ("u", Op.tradeOp ⟨"AAPL", "buy", 5, "market", none⟩ 1 1)]) := by
  have hg : nonnegState emptyGlobal := by
    intro e he
    exact absurd he (List.not_mem_nil e)
  have hops : ∀ x ∈ [("u", Op.initOp "beginner" 0),
      ("u", Op.tradeOp ⟨"AAPL", "buy", 5, "market", none⟩ 1 1)], goodOp x.2 := by
    intro x hx
    rcases List.mem_cons.1 hx with rfl | hx
    · exact trivial
    · rcases List.mem_cons.1 hx with rfl | hx
      · exact ⟨by norm_num, by norm_num⟩
      · exact absurd hx (List.not_mem_nil _)
  exact ⟨hg, hops, balance_nonneg_for_wellformed_runs emptyGlobal _ hg hops⟩

end AlphaFinance
